import Mathlib

set_option maxRecDepth 10000

namespace SharedStorage

/-- Byte strings stand in for the `OsString` / byte-payload values of the source
(component names are opaque filesystem-native byte strings, not assumed UTF-8). -/
abbrev ByteStr := List Nat

/-- Helper turning a Lean string literal into its byte-string model. -/
def bytes (s : String) : ByteStr := s.data.map Char.toNat

/-- Model of `StorageIdentifier` from src/storage.rs: hash (hex digest text,
modelled as its bytes), size, executable flag. -/
structure StorageIdentifier where
  hash : ByteStr
  size : Nat
  executable : Bool
deriving DecidableEq

/-- Model of `SRPInner` from src/util.rs: the counter cell of the simple
resource provider. -/
structure SRPInner where
  claims : Nat
  claims_in_use : Nat
  space : Nat
  space_in_use : Nat
  max_space : Option Nat
deriving DecidableEq

/-- Model of `SimpleResourceAllocation` from src/util.rs (the back-reference to
the shared cell is implicit: release is a function of the cell state). -/
structure SimpleResourceAllocation where
  space : Nat
  released : Bool
deriving DecidableEq

/-- Model of `ResourceClaimResult` from src/traits.rs, instantiated at the
simple provider's claim type. -/
inductive ResourceClaimResult where
  | ok : SimpleResourceAllocation → ResourceClaimResult
  | busy : ResourceClaimResult
  | impossible : ResourceClaimResult
deriving DecidableEq

/-- Body of `SimpleResourceProvider::claim` after the `max_space` guard
(src/util.rs lines 111-127). -/
def SRPInner.claimBody (inner : SRPInner) (size : Nat) :
    ResourceClaimResult × SRPInner :=
  if inner.claims_in_use = inner.claims then
    (.busy, inner)
  else if inner.claims_in_use > 0 ∧ inner.space_in_use + size > inner.space then
    (.busy, inner)
  else
    (.ok { space := size, released := false },
     { inner with
        space_in_use := inner.space_in_use + size,
        claims_in_use := inner.claims_in_use + 1 })

/-- Model of `SimpleResourceProvider::claim` (src/util.rs lines 106-129). -/
def SRPInner.claim (inner : SRPInner) (size : Nat) :
    ResourceClaimResult × SRPInner :=
  match inner.max_space with
  | some max => if size > max then (.impossible, inner) else inner.claimBody size
  | none => inner.claimBody size

/-- Model of `SimpleResourceAllocation::release` (src/util.rs lines 88-95):
guarded so a second release is a no-op. -/
def SRPInner.release (inner : SRPInner) (alloc : SimpleResourceAllocation) :
    SRPInner × SimpleResourceAllocation :=
  if alloc.released then (inner, alloc)
  else
    ({ inner with
        claims_in_use := inner.claims_in_use - 1,
        space_in_use := inner.space_in_use - alloc.space },
     { alloc with released := true })

/-- A provider state together with the ghost list of sizes of the outstanding
(unreleased) allocations it has granted. -/
structure SRPSys where
  inner : SRPInner
  live : List Nat

/-- Initial provider state for parameters (C, S, M): fresh counters, nothing
outstanding. -/
def SRPSys.init (C S : Nat) (M : Option Nat) : SRPSys :=
  ⟨⟨C, 0, S, 0, M⟩, []⟩

/-- One observable operation on the simple resource provider: a granted claim,
a denied claim (which leaves the counters unchanged), or the release of one
outstanding allocation. -/
inductive SRPStep : SRPSys → SRPSys → Prop
  | claim (s : SRPSys) (size : Nat) (alloc : SimpleResourceAllocation)
      (inner' : SRPInner) (h : s.inner.claim size = (.ok alloc, inner')) :
      SRPStep s ⟨inner', size :: s.live⟩
  | claimDenied (s : SRPSys) (size : Nat) (r : ResourceClaimResult)
      (inner' : SRPInner) (h : s.inner.claim size = (r, inner'))
      (hr : r = .busy ∨ r = .impossible) :
      SRPStep s ⟨inner', s.live⟩
  | release (s : SRPSys) (pre post : List Nat) (size : Nat)
      (h : s.live = pre ++ size :: post) :
      SRPStep s ⟨(s.inner.release ⟨size, false⟩).1, pre ++ post⟩

/-- States reachable from the initial provider state by any sequence of claim
and release operations. -/
def SRPReachable (C S : Nat) (M : Option Nat) (s : SRPSys) : Prop :=
  Relation.ReflTransGen SRPStep (SRPSys.init C S M) s

theorem claimBody_ok_inversion (inner : SRPInner) (size : Nat)
    (alloc : SimpleResourceAllocation) (inner' : SRPInner)
    (h : inner.claimBody size = (.ok alloc, inner')) :
    inner.claims_in_use ≠ inner.claims ∧
      (inner.claims_in_use = 0 ∨ inner.space_in_use + size ≤ inner.space) ∧
      inner' = { inner with
        space_in_use := inner.space_in_use + size,
        claims_in_use := inner.claims_in_use + 1 } := by
  unfold SRPInner.claimBody at h
  split at h
  · simp at h
  · split at h
    · simp at h
    · rename_i h1 h2
      simp only [Prod.mk.injEq, ResourceClaimResult.ok.injEq] at h
      exact ⟨h1, by omega, h.2.symm⟩

theorem claim_ok_inversion (inner : SRPInner) (size : Nat)
    (alloc : SimpleResourceAllocation) (inner' : SRPInner)
    (h : inner.claim size = (.ok alloc, inner')) :
    inner.claims_in_use ≠ inner.claims ∧
      (inner.claims_in_use = 0 ∨ inner.space_in_use + size ≤ inner.space) ∧
      inner' = { inner with
        space_in_use := inner.space_in_use + size,
        claims_in_use := inner.claims_in_use + 1 } := by
  unfold SRPInner.claim at h
  split at h
  · split at h
    · simp at h
    · exact claimBody_ok_inversion _ _ _ _ h
  · exact claimBody_ok_inversion _ _ _ _ h

theorem claimBody_denied_state (inner : SRPInner) (size : Nat)
    (r : ResourceClaimResult) (inner' : SRPInner)
    (h : inner.claimBody size = (r, inner')) (hr : r = .busy ∨ r = .impossible) :
    inner' = inner := by
  unfold SRPInner.claimBody at h
  split at h
  · cases h; rfl
  · split at h
    · cases h; rfl
    · rcases hr with hr | hr <;> subst hr <;> simpa using congrArg Prod.fst h

theorem claim_denied_state (inner : SRPInner) (size : Nat)
    (r : ResourceClaimResult) (inner' : SRPInner)
    (h : inner.claim size = (r, inner')) (hr : r = .busy ∨ r = .impossible) :
    inner' = inner := by
  unfold SRPInner.claim at h
  split at h
  · split at h
    · cases h; rfl
    · exact claimBody_denied_state _ _ _ _ h hr
  · exact claimBody_denied_state _ _ _ _ h hr

theorem release_fresh (inner : SRPInner) (size : Nat) :
    (inner.release ⟨size, false⟩).1 =
      { inner with
          claims_in_use := inner.claims_in_use - 1,
          space_in_use := inner.space_in_use - size } := by
  simp [SRPInner.release]

theorem srp_invariant_aux (C S : Nat) (M : Option Nat) (s : SRPSys)
    (h : SRPReachable C S M s) :
    s.inner.claims = C ∧ s.inner.space = S ∧ s.inner.claims_in_use ≤ C ∧
      (1 < s.inner.claims_in_use → s.inner.space_in_use ≤ S) := by
  induction h with
  | refl => simp [SRPSys.init]
  | tail _ hstep ih =>
    rcases ih with ⟨hc, hs, hciu, hsiu⟩
    cases hstep with
    | claim size alloc inner' hcl =>
      obtain ⟨hne, hgrant, hinner⟩ := claim_ok_inversion _ _ _ _ hcl
      subst hinner
      dsimp only at *
      exact ⟨hc, hs, by omega, by omega⟩
    | claimDenied size r inner' hcl hr =>
      have hsame := claim_denied_state _ _ _ _ hcl hr
      subst hsame
      exact ⟨hc, hs, hciu, hsiu⟩
    | release pre post size hlive =>
      dsimp only
      rw [release_fresh]
      dsimp only at *
      exact ⟨hc, hs, by omega, by omega⟩

/-- C5: for every state of the simple resource provider and every requested
size, `claim(size)` returns Impossible when a hard cap is set and exceeded;
otherwise Busy when the claim count is exhausted; otherwise Busy when some
claim is outstanding and the soft space cap would be exceeded; otherwise it
grants a handle and increments both counters — in particular a lone claim of
any size is granted regardless of the soft cap. -/
theorem c5_claim_cases (inner : SRPInner) (size : Nat) :
    (∀ m, inner.max_space = some m → size > m →
      inner.claim size = (.impossible, inner)) ∧
    ((∀ m, inner.max_space = some m → size ≤ m) →
      inner.claims_in_use = inner.claims →
      inner.claim size = (.busy, inner)) ∧
    ((∀ m, inner.max_space = some m → size ≤ m) →
      inner.claims_in_use ≠ inner.claims →
      inner.claims_in_use > 0 → inner.space_in_use + size > inner.space →
      inner.claim size = (.busy, inner)) ∧
    ((∀ m, inner.max_space = some m → size ≤ m) →
      inner.claims_in_use ≠ inner.claims →
      (inner.claims_in_use = 0 ∨ inner.space_in_use + size ≤ inner.space) →
      inner.claim size =
        (.ok { space := size, released := false },
         { inner with
            space_in_use := inner.space_in_use + size,
            claims_in_use := inner.claims_in_use + 1 })) := by
  refine ⟨?_, ?_, ?_, ?_⟩
  · intro m hm hgt
    unfold SRPInner.claim
    rw [hm]
    simp [hgt]
  · intro hcap heq
    unfold SRPInner.claim SRPInner.claimBody
    rcases hm : inner.max_space with _ | m
    · simp [heq]
    · have := hcap m hm
      simp [Nat.not_lt.mpr this, heq]
  · intro hcap hne hpos hsp
    unfold SRPInner.claim SRPInner.claimBody
    rcases hm : inner.max_space with _ | m
    · simp [hne, hpos, hsp]
    · have := hcap m hm
      simp [Nat.not_lt.mpr this, hne, hpos, hsp]
  · intro hcap hne hfit
    unfold SRPInner.claim SRPInner.claimBody
    have hcond : ¬(inner.claims_in_use > 0 ∧
        inner.space_in_use + size > inner.space) := by omega
    rcases hm : inner.max_space with _ | m
    · simp only [if_neg hne, if_neg hcond]
    · have := hcap m hm
      dsimp only
      rw [if_neg (Nat.not_lt.mpr this)]
      simp only [if_neg hne, if_neg hcond]

/-- Witness for C5: the four cases exercised on concrete provider states,
including scenario S5 (lone oversize claim against provider (claims=1,
space=10) is granted). -/
theorem c5_claim_cases_witness :
    (SRPInner.mk 1 0 10 0 none).claim 100 =
      (.ok ⟨100, false⟩, SRPInner.mk 1 1 10 100 none) ∧
    (SRPInner.mk 1 0 10 0 (some 50)).claim 100 =
      (.impossible, SRPInner.mk 1 0 10 0 (some 50)) ∧
    (SRPInner.mk 1 1 10 1 none).claim 1 =
      (.busy, SRPInner.mk 1 1 10 1 none) ∧
    (SRPInner.mk 2 1 10 10 none).claim 1 =
      (.busy, SRPInner.mk 2 1 10 10 none) :=
  ⟨(c5_claim_cases ⟨1, 0, 10, 0, none⟩ 100).2.2.2
      (fun m h => Option.noConfusion h) (by decide) (Or.inl rfl),
   (c5_claim_cases ⟨1, 0, 10, 0, some 50⟩ 100).1 50 rfl (by decide),
   (c5_claim_cases ⟨1, 1, 10, 1, none⟩ 1).2.1
      (fun m h => Option.noConfusion h) rfl,
   (c5_claim_cases ⟨2, 1, 10, 10, none⟩ 1).2.2.1
      (fun m h => Option.noConfusion h) (by decide) (by decide) (by decide)⟩

/-- C6: for the simple resource provider with parameters (C = max claims,
S = soft space cap), in every state reachable by any sequence of claim and
release operations from the initial state, `claims_in_use ≤ C` holds and it is
never the case that more than one claim is outstanding while `space_in_use`
exceeds S. -/
theorem c6_srp_invariant (C S : Nat) (M : Option Nat) (s : SRPSys)
    (h : SRPReachable C S M s) :
    s.inner.claims_in_use ≤ C ∧
      ¬(1 < s.inner.claims_in_use ∧ S < s.inner.space_in_use) := by
  obtain ⟨_, _, hciu, hsiu⟩ := srp_invariant_aux C S M s h
  exact ⟨hciu, fun ⟨h1, h2⟩ => absurd (hsiu h1) (by omega)⟩

/-- Witness for C6: the invariant instantiated at a state of the provider
(claims=2, space=10) reached by one granted claim of size 7. -/
theorem c6_srp_invariant_witness :
    (SRPSys.mk (SRPInner.mk 2 1 10 7 none) [7]).inner.claims_in_use ≤ 2 ∧
      ¬(1 < (SRPSys.mk (SRPInner.mk 2 1 10 7 none) [7]).inner.claims_in_use ∧
        10 < (SRPSys.mk (SRPInner.mk 2 1 10 7 none) [7]).inner.space_in_use) :=
  c6_srp_invariant 2 10 none _
    (Relation.ReflTransGen.single
      (SRPStep.claim (SRPSys.init 2 10 none) 7 ⟨7, false⟩
        (SRPInner.mk 2 1 10 7 none) (by decide)))

/-- Component of a filesystem path, mirroring `std::path::Component`
(`Prefix` is modelled by the constructor `pfx`). A path is modelled as its
already-normalized component sequence. -/
inductive PathComponent where
  | pfx : PathComponent
  | rootDir : PathComponent
  | curDir : PathComponent
  | parentDir : PathComponent
  | normal : ByteStr → PathComponent
deriving DecidableEq

/-- A path is its sequence of components, as yielded by
`std::path::Path::components`. -/
abbrev MPath := List PathComponent

/-- Model of the error enum from src/error.rs (payloads reduced to the data
the modelled code stores in them; `livelock` is a model-only marker for the
source's unbounded Busy retry loop when no task is pending). -/
inductive Err where
  | preparing : Err
  | entryNotFound : ByteStr → Err
  | entryNotDirectory : ByteStr → Err
  | unexpectedPfx : MPath → Err
  | unexpectedParent : MPath → Err
  | unexpectedRootDir : MPath → Err
  | indexTooLarge : List ByteStr → Nat → Err
  | parsingIndex : Err
  | serialisingIndex : Err
  | writingIndex : List ByteStr → Err
  | unexpectedFileData : Err
  | fileEntryExistsAsDirectory : ByteStr → Err
  | fileEntryExistsAsFile : ByteStr → Err
  | directoryEntryExistsAsFile : ByteStr → Err
  | impossibleFileClaim : MPath → Nat → Err
  | unexpectedEndOfContent : Err
  | expectedFileDataEvent : Err
  | ioErrorAddingToStorage : Err
  | importStreamError : Err
  | joinError : Err
  | livelock : Err
deriving DecidableEq

mutual
/-- Model of `DirectoryEntry` from src/entry.rs. -/
inductive DirectoryEntry where
  | directory : Directory → DirectoryEntry
  | file : StorageIdentifier → DirectoryEntry
/-- Model of `Directory` from src/entry.rs; the entry `HashMap` is modelled as
an association sequence of (component name, entry) pairs. -/
inductive Directory where
  | mk : Entries → Directory
/-- Association sequence of directory entries keyed by byte-string names. -/
inductive Entries where
  | nil : Entries
  | cons : ByteStr → DirectoryEntry → Entries → Entries
end

/-- Lookup of a name in an entry sequence (the `HashMap` lookup of the
source). -/
def Entries.lookup : Entries → ByteStr → Option DirectoryEntry
  | .nil, _ => none
  | .cons k v rest, name => if k = name then some v else rest.lookup name

/-- Insertion of a fresh binding (the vacant-entry insert of the source). -/
def Entries.insertNew : Entries → ByteStr → DirectoryEntry → Entries
  | .nil, k, v => .cons k v .nil
  | .cons k' v' rest, k, v => .cons k' v' (rest.insertNew k v)

/-- Replacement of the value bound to an existing key. -/
def Entries.replace : Entries → ByteStr → DirectoryEntry → Entries
  | .nil, _, _ => .nil
  | .cons k' v' rest, k, v =>
    if k' = k then .cons k' v rest else .cons k' v' (rest.replace k v)

def Directory.entries : Directory → Entries
  | .mk es => es

def Directory.lookup (d : Directory) (name : ByteStr) : Option DirectoryEntry :=
  d.entries.lookup name

def Directory.insertNew (d : Directory) (name : ByteStr) (v : DirectoryEntry) :
    Directory :=
  .mk (d.entries.insertNew name v)

def Directory.replaceEntry (d : Directory) (name : ByteStr)
    (v : DirectoryEntry) : Directory :=
  .mk (d.entries.replace name v)

/-- Model of `Directory::default()`. -/
def Directory.empty : Directory := .mk .nil

/-- Model of `Directory::insert_file` (src/entry.rs lines 95-112): insert a
file entry under invariants I3-I5. -/
def Directory.insert_file (d : Directory) (file_name : ByteStr)
    (identity : StorageIdentifier) : Except Err Directory :=
  match d.lookup file_name with
  | none => .ok (d.insertNew file_name (.file identity))
  | some (.directory _) => .error (.fileEntryExistsAsDirectory file_name)
  | some (.file f) =>
    if f = identity then .ok d else .error (.fileEntryExistsAsFile file_name)

/-- Model of `Directory::mkdir` (src/entry.rs lines 114-128). -/
def Directory.mkdir (d : Directory) (file_name : ByteStr) :
    Except Err Directory :=
  match d.lookup file_name with
  | none => .ok (d.insertNew file_name (.directory .empty))
  | some (.file _) => .error (.directoryEntryExistsAsFile file_name)
  | some (.directory _) => .ok d

/-- Model of `root.traverse_mut(path, create)?` followed by a mutation of the
reached sub-directory (src/entry.rs lines 78-93 with `descend_mut`,
lines 41-59): walks `path` from `d`, creating missing directory components
when `create` is true, then applies `f` to the reached sub-directory; `whole`
is the full path stored into path-shaped errors. -/
def Directory.modAt (d : Directory) (whole : MPath) (path : MPath)
    (create : Bool) (f : Directory → Except Err Directory) :
    Except Err Directory :=
  match path with
  | [] => f d
  | .curDir :: rest => d.modAt whole rest create f
  | .pfx :: _ => .error (.unexpectedPfx whole)
  | .parentDir :: _ => .error (.unexpectedParent whole)
  | .rootDir :: _ => .error (.unexpectedRootDir whole)
  | .normal c :: rest =>
    match d.lookup c with
    | none =>
      if create then
        match Directory.empty.modAt whole rest create f with
        | .ok sub' => .ok (d.insertNew c (.directory sub'))
        | .error e => .error e
      else .error (.entryNotFound c)
    | some (.directory sub) =>
      match sub.modAt whole rest create f with
      | .ok sub' => .ok (d.replaceEntry c (.directory sub'))
      | .error e => .error e
    | some (.file _) => .error (.entryNotDirectory c)

/-- Shorthand fixing the error path argument the way `traverse_mut(p, create)`
does. -/
def Directory.traverse_mut_then (d : Directory) (p : MPath) (create : Bool)
    (f : Directory → Except Err Directory) : Except Err Directory :=
  d.modAt p p create f

/-- Model of `std::path::Path::file_name`: the last component when it is a
normal component, None otherwise. -/
def fileNameOf (p : MPath) : Option ByteStr :=
  match p.getLast? with
  | some (.normal n) => some n
  | _ => none

/-- Model of `std::path::Path::parent`: None for the empty path and for a
bare root or prefix, otherwise the path without its last component. -/
def parentOf (p : MPath) : Option MPath :=
  match p with
  | [] => none
  | [.rootDir] => none
  | [.pfx] => none
  | _ => some p.dropLast

/-- Model of the `ImportEvent::Directory(d)` arm of `SharedStorage::import_`
(src/storage.rs lines 280-288). -/
def handleDirectory (root : Directory) (d : MPath) : Except Err Directory :=
  match fileNameOf d with
  | some dirname =>
    match parentOf d with
    | some par => root.traverse_mut_then par false (fun sub => sub.mkdir dirname)
    | none => root.mkdir dirname
  | none => .ok root

/-- Model of merging one completed file task into the tree, as performed both
by the opportunistic drains inside `import_` and by the final drain in
`SharedStorage::import` (src/storage.rs lines 218-228, 263-276, 302-313). -/
def mergeCompletion (root : Directory) (parent_path : Option MPath)
    (file_name : ByteStr) (identity : StorageIdentifier) :
    Except Err Directory :=
  match parent_path with
  | some pp =>
    root.traverse_mut_then pp false (fun sub => sub.insert_file file_name identity)
  | none => root.insert_file file_name identity

/-- C7: `insert_file(name, identity)` succeeds and leaves the directory
unchanged when an entry of that name already exists as a file with the same
identifier; fails with FileEntryExistsAsFile when it exists as a file with a
different identifier; fails with FileEntryExistsAsDirectory when it exists as
a directory; the model is pure, so in each error case the caller's directory
is unchanged. -/
theorem c7_insert_file_cases (d : Directory) (name : ByteStr)
    (identity : StorageIdentifier) :
    (∀ f, d.lookup name = some (.file f) → f = identity →
      d.insert_file name identity = .ok d) ∧
    (∀ f, d.lookup name = some (.file f) → f ≠ identity →
      d.insert_file name identity = .error (.fileEntryExistsAsFile name)) ∧
    (∀ sub, d.lookup name = some (.directory sub) →
      d.insert_file name identity = .error (.fileEntryExistsAsDirectory name)) := by
  refine ⟨?_, ?_, ?_⟩ <;> intro e he
  · intro hf
    unfold Directory.insert_file
    rw [he]
    dsimp only
    rw [if_pos hf]
  · intro hf
    unfold Directory.insert_file
    rw [he]
    dsimp only
    rw [if_neg hf]
  · unfold Directory.insert_file
    rw [he]

/-- Witness for C7: the three cases exercised on a concrete directory holding
one file entry and one directory entry. -/
theorem c7_insert_file_cases_witness :
    (Directory.mk (.cons [102] (.file ⟨[97], 1, false⟩)
        (.cons [100] (.directory .empty) .nil))).insert_file [102]
        ⟨[97], 1, false⟩ =
      .ok (Directory.mk (.cons [102] (.file ⟨[97], 1, false⟩)
        (.cons [100] (.directory .empty) .nil))) ∧
    (Directory.mk (.cons [102] (.file ⟨[97], 1, false⟩)
        (.cons [100] (.directory .empty) .nil))).insert_file [102]
        ⟨[98], 2, true⟩ =
      .error (.fileEntryExistsAsFile [102]) ∧
    (Directory.mk (.cons [102] (.file ⟨[97], 1, false⟩)
        (.cons [100] (.directory .empty) .nil))).insert_file [100]
        ⟨[98], 2, true⟩ =
      .error (.fileEntryExistsAsDirectory [100]) :=
  ⟨(c7_insert_file_cases _ [102] ⟨[97], 1, false⟩).1 ⟨[97], 1, false⟩ rfl rfl,
   (c7_insert_file_cases _ [102] ⟨[98], 2, true⟩).2.1 ⟨[97], 1, false⟩ rfl
      (by decide),
   (c7_insert_file_cases _ [100] ⟨[98], 2, true⟩).2.2 .empty rfl⟩

/-- C10: a `Directory(p)` import event whose path has no final normal
component — p empty, p solely the current-directory reference, or p ending in
a parent-directory reference — is silently skipped: the tree is returned
unchanged, no traversal or validation happens, and no error is raised. -/
theorem c10_skip_no_filename (root : Directory) (p : MPath)
    (h : p = [] ∨ p = [.curDir] ∨ ∃ q, p = q ++ [.parentDir]) :
    handleDirectory root p = .ok root := by
  have hfn : fileNameOf p = none := by
    rcases h with h | h | ⟨q, h⟩ <;> subst h <;> simp [fileNameOf]
  unfold handleDirectory
  rw [hfn]

/-- Witness for C10: a directory event for the path consisting of a single
parent-directory reference leaves the tree untouched. -/
theorem c10_skip_no_filename_witness :
    handleDirectory Directory.empty [.parentDir] = .ok Directory.empty :=
  c10_skip_no_filename Directory.empty [.parentDir]
    (Or.inr (Or.inr ⟨[], rfl⟩))

/-- Counterexample to C2 as stated: a `Directory("a/b")` event against an
empty tree does not create the missing intermediate component "a"; the import
aborts with EntryNotFound("a") instead. -/
theorem c2_counterexample :
    handleDirectory Directory.empty
        [.normal (bytes "a"), .normal (bytes "b")] =
      .error (.entryNotFound (bytes "a")) := rfl

/-- C2 (amended): the engine passes create=false to `traverse_mut` both when
handling a `Directory(p)` event and when merging a completed file task, so a
missing intermediate component is never created implicitly: in both places it
aborts with EntryNotFound naming the absent component. -/
theorem c2_no_implicit_creation (root : Directory) (a b fname : ByteStr)
    (identity : StorageIdentifier) (ha : root.lookup a = none) :
    handleDirectory root [.normal a, .normal b] =
      .error (.entryNotFound a) ∧
    mergeCompletion root (some [.normal a]) fname identity =
      .error (.entryNotFound a) := by
  constructor
  · have hfn : fileNameOf [.normal a, .normal b] = some b := by
      simp [fileNameOf]
    unfold handleDirectory
    rw [hfn]
    simp only [parentOf, List.dropLast]
    simp [Directory.traverse_mut_then, Directory.modAt, ha]
  · simp [mergeCompletion, Directory.traverse_mut_then, Directory.modAt, ha]

/-- Witness for C2 (amended): both failure modes at concrete inputs on the
empty tree. -/
theorem c2_no_implicit_creation_witness :
    handleDirectory Directory.empty [.normal [97], .normal [98]] =
      .error (.entryNotFound [97]) ∧
    mergeCompletion Directory.empty (some [.normal [97]]) [102]
        ⟨[97], 1, false⟩ =
      .error (.entryNotFound [97]) :=
  c2_no_implicit_creation Directory.empty [97] [98] [102] ⟨[97], 1, false⟩ rfl

/-- Byte rendering of a natural number in decimal, as `format!` renders
`usize`. -/
def natBytes (n : Nat) : ByteStr := bytes (toString n)

/-- Model of `StorageIdentifier::filename` (src/storage.rs lines 70-88):
BASE/data/h[0:2]/h[2:4]/h[4:]-size, with a trailing literal x when the
executable flag is set. -/
def StorageIdentifier.filename (identity : StorageIdentifier)
    (base : List ByteStr) : List ByteStr :=
  base ++ [bytes "data", identity.hash.take 2, (identity.hash.drop 2).take 2,
    identity.hash.drop 4 ++ bytes "-" ++ natBytes identity.size ++
      (if identity.executable then bytes "x" else [])]

/-- C8: for every storage identifier (h, n, x) with h = a ++ b ++ c split at
offsets 2 and 4, the on-disk blob path is BASE/data/a/b/(c-n) with a literal
"x" appended exactly when the executable flag is true; equal identifiers map
to equal paths. -/
theorem c8_filename_layout (a b c : ByteStr) (n : Nat) (x : Bool)
    (base : List ByteStr) (ha : a.length = 2) (hb : b.length = 2) :
    (StorageIdentifier.mk (a ++ b ++ c) n x).filename base =
      base ++ [bytes "data", a, b,
        c ++ bytes "-" ++ natBytes n ++ (if x then bytes "x" else [])] ∧
    ∀ i j : StorageIdentifier, i = j → i.filename base = j.filename base := by
  constructor
  · have h1 : (a ++ b ++ c).take 2 = a := by
      rw [List.append_assoc]; exact List.take_left' ha
    have h2 : (a ++ b ++ c).drop 2 = b ++ c := by
      rw [List.append_assoc]; exact List.drop_left' ha
    have h3 : (a ++ b ++ c).drop 4 = c := by
      have hl : (a ++ b).length = 4 := by simp [ha, hb]
      exact List.drop_left' hl
    unfold StorageIdentifier.filename
    dsimp only
    rw [h1, h2, h3, List.take_left' hb]
  · intro i j hij
    rw [hij]

/-- Witness for C8: the layout at the concrete identifier
(hash = [97,98,99,100,101], size = 5, executable = true). -/
theorem c8_filename_layout_witness :
    (StorageIdentifier.mk ([97, 98] ++ [99, 100] ++ [101]) 5 true).filename
        [bytes "BASE"] =
      [bytes "BASE"] ++ [bytes "data", [97, 98], [99, 100],
        [101] ++ bytes "-" ++ natBytes 5 ++
          (if true then bytes "x" else [])] :=
  (c8_filename_layout [97, 98] [99, 100] [101] 5 true [bytes "BASE"]
    (by decide) (by decide)).1

mutual
/-- Modelled from the spec: the index manifest is a textual JSON-family value
(json5 is an external crate, so the codec is modelled at the level of the
JSON value tree); object keys are opaque byte strings so that non-UTF-8
component names round-trip bit-identically. -/
inductive Json where
  | str : ByteStr → Json
  | num : Nat → Json
  | bool : Bool → Json
  | obj : JFields → Json
/-- Field sequence of a JSON object, keyed by byte strings. -/
inductive JFields where
  | nil : JFields
  | cons : ByteStr → Json → JFields → JFields
end

mutual
/-- Modelled from the spec: serde serialization of `Directory` — the root
value is an object with a single field `entries` mapping component names to
entries. -/
def encodeDir : Directory → Json
  | .mk es => Json.obj (.cons (bytes "entries") (Json.obj (encodeEntries es)) .nil)
/-- Field-by-field encoding of an entry sequence. -/
def encodeEntries : Entries → JFields
  | .nil => .nil
  | .cons k v rest => .cons k (encodeEntry v) (encodeEntries rest)
/-- Modelled from the spec: each entry is either a Directory object or a File
object carrying hash, size and executable. -/
def encodeEntry : DirectoryEntry → Json
  | .directory d => Json.obj (.cons (bytes "Directory") (encodeDir d) .nil)
  | .file i =>
    Json.obj (.cons (bytes "File")
      (Json.obj (.cons (bytes "hash") (.str i.hash)
        (.cons (bytes "size") (.num i.size)
          (.cons (bytes "executable") (.bool i.executable) .nil)))) .nil)
end

/-- Decoding of the File entry body. -/
def decodeFile : Json → Option DirectoryEntry
  | Json.obj (.cons k1 (Json.str h)
      (.cons k2 (Json.num n) (.cons k3 (Json.bool b) .nil))) =>
    if k1 = bytes "hash" ∧ k2 = bytes "size" ∧ k3 = bytes "executable" then
      some (.file ⟨h, n, b⟩)
    else none
  | _ => none

mutual
/-- Modelled from the spec: parsing a manifest value back into a `Directory`
(the failure case of the textual parse corresponds to `none`). -/
def decodeDir : Json → Option Directory
  | Json.obj (.cons k v .nil) =>
    if k = bytes "entries" then
      match v with
      | Json.obj fs =>
        match decodeEntries fs with
        | some es => some (.mk es)
        | none => none
      | _ => none
    else none
  | _ => none
/-- Parsing of the field sequence of an entries object. -/
def decodeEntries : JFields → Option Entries
  | .nil => some .nil
  | .cons k v rest =>
    match decodeEntry v, decodeEntries rest with
    | some e, some es => some (.cons k e es)
    | _, _ => none
/-- Parsing of a single entry value. -/
def decodeEntry : Json → Option DirectoryEntry
  | Json.obj (.cons k v .nil) =>
    if k = bytes "Directory" then
      match decodeDir v with
      | some d => some (.directory d)
      | none => none
    else if k = bytes "File" then decodeFile v
    else none
  | _ => none
end

mutual
theorem decode_encodeDir : ∀ d, decodeDir (encodeDir d) = some d
  | .mk es => by
    simp [encodeDir, decodeDir, decode_encodeEntries es]
theorem decode_encodeEntries :
    ∀ es, decodeEntries (encodeEntries es) = some es
  | .nil => rfl
  | .cons k v rest => by
    simp [encodeEntries, decodeEntries, decode_encodeEntry v,
      decode_encodeEntries rest]
theorem decode_encodeEntry : ∀ e, decodeEntry (encodeEntry e) = some e
  | .directory d => by
    simp [encodeEntry, decodeEntry, decode_encodeDir d]
  | .file i => by
    have h1 : bytes "File" ≠ bytes "Directory" := by decide
    simp [encodeEntry, decodeEntry, decodeFile, h1]
end

/-- C3: parsing the serialization of any directory tree yields the same tree,
with entry names — arbitrary byte strings, not necessarily UTF-8 — preserved
bit-identically. -/
theorem c3_roundtrip (d : Directory) : decodeDir (encodeDir d) = some d :=
  decode_encodeDir d

/-- Escape of one byte inside a JSON string literal (quote and backslash). -/
def escByte (b : Nat) : ByteStr := if b = 34 ∨ b = 92 then [92, b] else [b]

/-- Rendering of a byte string as a quoted JSON string literal. -/
def renderStr (s : ByteStr) : ByteStr := (34 :: (s.map escByte).flatten) ++ [34]

mutual
/-- Modelled from the spec: the textual form of a manifest value produced by
the json5 serializer (strict JSON output: quoted keys, no trailing commas). -/
def renderJson : Json → ByteStr
  | .str s => renderStr s
  | .num n => natBytes n
  | .bool b => if b then bytes "true" else bytes "false"
  | .obj fs => (123 :: (renderFields fs ++ [125]))
/-- Comma-separated rendering of object fields. -/
def renderFields : JFields → ByteStr
  | .nil => []
  | .cons k v .nil => renderStr k ++ (58 :: renderJson v)
  | .cons k v rest =>
    renderStr k ++ (58 :: renderJson v) ++ (44 :: renderFields rest)
end

/-- Model of `String::try_from(&Directory)` (src/entry.rs lines 142-147): the
serialized text of a directory tree, as a byte string. -/
def serializeDir (d : Directory) : ByteStr := renderJson (encodeDir d)

/-- Stem of a file name per `std::path::Path::file_stem`: the portion before
the last dot (byte 46), except that a name beginning with a sole leading dot
is entirely its own stem. -/
def rustStem (name : ByteStr) : ByteStr :=
  match name.reverse.dropWhile (fun b => b ≠ 46) with
  | [] => name
  | _ :: stemRev => if stemRev = [] then name else stemRev.reverse

/-- Model of `PathBuf::set_extension(ext)`: replaces any existing extension
of the final component, appending a fresh one when there is none. -/
def set_extension (name ext : ByteStr) : ByteStr :=
  rustStem name ++ (46 :: ext)

/-- Association lookup of a path in the modelled file table. -/
def assocGet : List (List ByteStr × ByteStr) → List ByteStr → Option ByteStr
  | [], _ => none
  | (k, v) :: rest, p => if k = p then some v else assocGet rest p

/-- Removal of every binding of a path from the modelled file table. -/
def assocRemove :
    List (List ByteStr × ByteStr) → List ByteStr →
      List (List ByteStr × ByteStr)
  | [], _ => []
  | (k, v) :: rest, p =>
    if k = p then assocRemove rest p else (k, v) :: assocRemove rest p

/-- A flat model of the filesystem: a table from paths (component lists) to
file contents. -/
structure FS where
  files : List (List ByteStr × ByteStr)
deriving DecidableEq

def FS.get (fs : FS) (p : List ByteStr) : Option ByteStr :=
  assocGet fs.files p

def FS.write (fs : FS) (p : List ByteStr) (c : ByteStr) : FS :=
  ⟨(p, c) :: assocRemove fs.files p⟩

def FS.remove (fs : FS) (p : List ByteStr) : FS :=
  ⟨assocRemove fs.files p⟩

def FS.rename (fs : FS) (src dst : List ByteStr) : FS :=
  match fs.get src with
  | some c => (fs.remove src).write dst c
  | none => fs

theorem FS.get_write_self (fs : FS) (p : List ByteStr) (c : ByteStr) :
    (fs.write p c).get p = some c := by
  simp [FS.write, FS.get, assocGet]

theorem assocGet_remove_self (l : List (List ByteStr × ByteStr))
    (p : List ByteStr) : assocGet (assocRemove l p) p = none := by
  induction l with
  | nil => rfl
  | cons e rest ih =>
    obtain ⟨k, v⟩ := e
    unfold assocRemove
    split
    · exact ih
    · rename_i hk
      simp only [assocGet]
      rw [if_neg hk]
      exact ih

theorem assocGet_remove_ne (l : List (List ByteStr × ByteStr))
    (p q : List ByteStr) (h : p ≠ q) :
    assocGet (assocRemove l p) q = assocGet l q := by
  induction l with
  | nil => rfl
  | cons e rest ih =>
    obtain ⟨k, v⟩ := e
    unfold assocRemove
    split
    · rename_i hk
      subst hk
      rw [ih]
      simp only [assocGet]
      rw [if_neg h]
    · simp only [assocGet]
      split
      · rfl
      · exact ih

theorem FS.get_write_ne (fs : FS) (p q : List ByteStr) (c : ByteStr)
    (h : p ≠ q) : (fs.write p c).get q = fs.get q := by
  simp only [FS.write, FS.get, assocGet, if_neg h]
  exact assocGet_remove_ne _ _ _ h

theorem FS.get_remove_self (fs : FS) (p : List ByteStr) :
    (fs.remove p).get p = none :=
  assocGet_remove_self _ _

theorem FS.get_remove_ne (fs : FS) (p q : List ByteStr) (h : p ≠ q) :
    (fs.remove p).get q = fs.get q :=
  assocGet_remove_ne _ _ _ h

/-- Model of `InMemoryIndex` from src/storage.rs. -/
structure InMemoryIndex where
  dir : Directory
  dirty : Bool

/-- The 1 MiB ceiling `MAX_METADATA_SIZE` from src/storage.rs. -/
def MAX_METADATA_SIZE : Nat := 1 * 1024 * 1024

/-- Model of `SharedStorage::save_index` (src/storage.rs lines 138-181) for
an index already present in the map. The filesystem is threaded explicitly;
`renameFails` injects an I/O failure of the final rename. Returns the
filesystem, the index record, and the surfaced error if any. -/
def save_index (fs : FS) (renameFails : Bool) (base : List ByteStr)
    (name : ByteStr) (ime : InMemoryIndex) :
    FS × InMemoryIndex × Option Err :=
  if ime.dirty then
    let dir_s := serializeDir ime.dir
    if dir_s.length > MAX_METADATA_SIZE then
      (fs, ime, some (.indexTooLarge [name] dir_s.length))
    else
      let index_path := base ++ [bytes "indices", name]
      let index_path_tmp :=
        base ++ [bytes "indices", set_extension name (bytes "tmp")]
      if (fs.get index_path_tmp).isSome then
        (fs, ime, some (.writingIndex index_path_tmp))
      else
        let fs1 := fs.write index_path_tmp dir_s
        if renameFails then
          (fs1.remove index_path_tmp, ime, some (.writingIndex index_path))
        else
          (fs1.rename index_path_tmp index_path,
           { ime with dirty := false }, none)
  else (fs, ime, none)

/-- One entry of the `BASE/indices` directory listing as seen by
`load_indices`: its file name, whether it is a regular file, its metadata
length, and (modelled from the spec: the parsed JSON value of its text) its
body. -/
structure IndexDirEnt where
  name : ByteStr
  isFile : Bool
  len : Nat
  body : Json

/-- Model of `SharedStorage::load_indices` (src/storage.rs lines 102-123):
registers each regular file as a clean index, rejecting any whose length
exceeds the cap; non-regular entries are noted for later removal. -/
def load_indices (base : List ByteStr) :
    List IndexDirEnt →
      Except Err (List (ByteStr × InMemoryIndex) × List (List ByteStr))
  | [] => .ok ([], [])
  | e :: rest =>
    if e.isFile then
      if e.len > MAX_METADATA_SIZE then
        .error (.indexTooLarge (base ++ [bytes "indices", e.name]) e.len)
      else
        match decodeDir e.body with
        | none => .error .parsingIndex
        | some dir =>
          match load_indices base rest with
          | .ok (idxs, rem) => .ok ((e.name, ⟨dir, false⟩) :: idxs, rem)
          | .error er => .error er
    else
      match load_indices base rest with
      | .ok (idxs, rem) =>
        .ok (idxs, (base ++ [bytes "indices", e.name]) :: rem)
      | .error er => .error er

/-- A directory holding a single file entry named f whose identifier carries
the given hash; used to exhibit serializations of prescribed length. -/
def oneFileDir (h : ByteStr) : Directory :=
  .mk (.cons (bytes "f") (.file ⟨h, 0, false⟩) .nil)

theorem flatten_map_escByte (h : ByteStr) (he : ∀ b ∈ h, escByte b = [b]) :
    (h.map escByte).flatten = h := by
  induction h with
  | nil => rfl
  | cons b rest ih =>
    simp only [List.map_cons, List.flatten_cons]
    rw [he b (by simp), ih (fun x hx => he x (by simp [hx]))]
    rfl

theorem renderStr_length (h : ByteStr) (he : ∀ b ∈ h, escByte b = [b]) :
    (renderStr h).length = h.length + 2 := by
  unfold renderStr
  rw [flatten_map_escByte h he]
  simp

theorem serializeDir_oneFileDir_length (h : ByteStr)
    (he : ∀ b ∈ h, escByte b = [b]) :
    (serializeDir (oneFileDir h)).length = 66 + h.length := by
  have hs : (renderStr h).length = h.length + 2 := renderStr_length h he
  simp only [serializeDir, oneFileDir, encodeDir, encodeEntries, encodeEntry,
    renderJson, renderFields]
  simp only [List.length_append, List.length_cons, List.length_nil, hs]
  have e1 : (renderStr (bytes "entries")).length = 9 := rfl
  have e2 : (renderStr (bytes "f")).length = 3 := rfl
  have e3 : (renderStr (bytes "File")).length = 6 := rfl
  have e4 : (renderStr (bytes "hash")).length = 6 := rfl
  have e5 : (renderStr (bytes "size")).length = 6 := rfl
  have e6 : (renderStr (bytes "executable")).length = 12 := rfl
  have e7 : (natBytes 0).length = 1 := rfl
  have e8 : (if false = true then bytes "true" else bytes "false").length = 5 :=
    rfl
  rw [e1, e2, e3, e4, e5, e6, e7, e8]
  omega

/-- Counterexample to C4 as stated: for the index name "a.b" (which carries
an extension), `set_extension("tmp")` replaces the extension, so the
temporary path is BASE/indices/a.tmp and not BASE/indices/a.b.tmp; a stale
file at a.tmp makes the save fail even though no file exists at the claimed
temporary path a.b.tmp. -/
theorem c4_counterexample :
    save_index
        (FS.mk [([bytes "BASE", bytes "indices", bytes "a.tmp"], [])])
        false [bytes "BASE"] (bytes "a.b") ⟨Directory.empty, true⟩ =
      (FS.mk [([bytes "BASE", bytes "indices", bytes "a.tmp"], [])],
       ⟨Directory.empty, true⟩,
       some (.writingIndex [bytes "BASE", bytes "indices", bytes "a.tmp"])) ∧
    set_extension (bytes "a.b") (bytes "tmp") ≠ bytes "a.b" ++ bytes ".tmp" :=
  ⟨rfl, by decide⟩

/-- C4 (amended): save_index does nothing when the dirty flag is false;
otherwise it serializes the tree, rejects serializations over the 1 MiB cap
before touching the filesystem, writes the serialization create-exclusively
to the path obtained from BASE/indices/<name> by replacing the name's
extension with tmp (equal to BASE/indices/<name>.tmp whenever <name> has no
extension of its own), failing if a stale temp exists there, renames it onto
BASE/indices/<name>, removes the temp and surfaces WritingIndex if the
rename fails, and clears the dirty flag only on success. -/
theorem c4_save_index_steps (fs : FS) (rf : Bool) (base : List ByteStr)
    (name : ByteStr) (ime : InMemoryIndex) :
    (ime.dirty = false → save_index fs rf base name ime = (fs, ime, none)) ∧
    (ime.dirty = true → (serializeDir ime.dir).length > 1048576 →
      save_index fs rf base name ime =
        (fs, ime,
         some (.indexTooLarge [name] (serializeDir ime.dir).length))) ∧
    (ime.dirty = true → (serializeDir ime.dir).length ≤ 1048576 →
      (fs.get (base ++ [bytes "indices", set_extension name (bytes "tmp")])).isSome
          = true →
      save_index fs rf base name ime =
        (fs, ime,
         some (.writingIndex
          (base ++ [bytes "indices", set_extension name (bytes "tmp")])))) ∧
    (ime.dirty = true → (serializeDir ime.dir).length ≤ 1048576 →
      fs.get (base ++ [bytes "indices", set_extension name (bytes "tmp")])
          = none →
      set_extension name (bytes "tmp") ≠ name → rf = true →
      (save_index fs rf base name ime).2.2 =
          some (.writingIndex (base ++ [bytes "indices", name])) ∧
        (save_index fs rf base name ime).1.get
            (base ++ [bytes "indices", set_extension name (bytes "tmp")])
          = none ∧
        (save_index fs rf base name ime).1.get
            (base ++ [bytes "indices", name])
          = fs.get (base ++ [bytes "indices", name]) ∧
        (save_index fs rf base name ime).2.1 = ime) ∧
    (ime.dirty = true → (serializeDir ime.dir).length ≤ 1048576 →
      fs.get (base ++ [bytes "indices", set_extension name (bytes "tmp")])
          = none →
      set_extension name (bytes "tmp") ≠ name → rf = false →
      (save_index fs rf base name ime).2.2 = none ∧
        (save_index fs rf base name ime).1.get
            (base ++ [bytes "indices", name])
          = some (serializeDir ime.dir) ∧
        (save_index fs rf base name ime).1.get
            (base ++ [bytes "indices", set_extension name (bytes "tmp")])
          = none ∧
        (save_index fs rf base name ime).2.1 =
          InMemoryIndex.mk ime.dir false) := by
  refine ⟨?_, ?_, ?_, ?_, ?_⟩
  · intro hd
    unfold save_index
    rw [hd]
    rfl
  · intro hd hlen
    have hgt : (serializeDir ime.dir).length > MAX_METADATA_SIZE := by
      unfold MAX_METADATA_SIZE
      omega
    unfold save_index
    rw [hd]
    simp only [if_true, if_pos hgt]
  · intro hd hlen htmp
    have hng : ¬((serializeDir ime.dir).length > MAX_METADATA_SIZE) := by
      unfold MAX_METADATA_SIZE
      omega
    unfold save_index
    rw [hd]
    simp only [if_true, if_neg hng, htmp]
  · intro hd hlen htmp hne hrf
    have hng : ¬((serializeDir ime.dir).length > MAX_METADATA_SIZE) := by
      unfold MAX_METADATA_SIZE
      omega
    have hpne :
        base ++ [bytes "indices", set_extension name (bytes "tmp")] ≠
          base ++ [bytes "indices", name] := by
      intro hEq
      have h2 := List.append_cancel_left hEq
      simp at h2
      exact hne h2
    have heval : save_index fs rf base name ime =
        ((fs.write
            (base ++ [bytes "indices", set_extension name (bytes "tmp")])
            (serializeDir ime.dir)).remove
            (base ++ [bytes "indices", set_extension name (bytes "tmp")]),
         ime, some (.writingIndex (base ++ [bytes "indices", name]))) := by
      unfold save_index
      rw [hd, hrf]
      simp only [if_true, if_neg hng, htmp, Option.isSome_none,
        Bool.false_eq_true, if_false]
    rw [heval]
    refine ⟨rfl, FS.get_remove_self _ _, ?_, rfl⟩
    rw [FS.get_remove_ne _ _ _ hpne, FS.get_write_ne _ _ _ _ hpne]
  · intro hd hlen htmp hne hrf
    have hng : ¬((serializeDir ime.dir).length > MAX_METADATA_SIZE) := by
      unfold MAX_METADATA_SIZE
      omega
    have hpne :
        base ++ [bytes "indices", set_extension name (bytes "tmp")] ≠
          base ++ [bytes "indices", name] := by
      intro hEq
      have h2 := List.append_cancel_left hEq
      simp at h2
      exact hne h2
    have heval : save_index fs rf base name ime =
        (((fs.write
            (base ++ [bytes "indices", set_extension name (bytes "tmp")])
            (serializeDir ime.dir)).remove
            (base ++ [bytes "indices", set_extension name (bytes "tmp")])).write
            (base ++ [bytes "indices", name]) (serializeDir ime.dir),
         InMemoryIndex.mk ime.dir false, none) := by
      unfold save_index
      rw [hd, hrf]
      simp only [if_true, if_neg hng, htmp, Option.isSome_none,
        Bool.false_eq_true, if_false]
      simp only [FS.rename, FS.get_write_self]
    rw [heval]
    refine ⟨rfl, FS.get_write_self _ _ _, ?_, rfl⟩
    rw [FS.get_write_ne _ _ _ _ (Ne.symm hpne), FS.get_remove_self]

/-- Witness for C4 (amended): all five behaviors at concrete inputs — clean
index untouched; oversized serialization rejected; stale temp rejected;
rename failure removes the temp and keeps dirty; success installs the index
text and clears dirty. -/
theorem c4_save_index_steps_witness :
    save_index (FS.mk []) false [] (bytes "i") ⟨Directory.empty, false⟩ =
      (FS.mk [], ⟨Directory.empty, false⟩, none) ∧
    (save_index (FS.mk []) false []
        (bytes "i") ⟨oneFileDir (List.replicate 1048511 97), true⟩).2.2 =
      some (.indexTooLarge [bytes "i"] 1048577) ∧
    save_index
        (FS.mk [([bytes "indices", bytes "i.tmp"], [])]) false []
        (bytes "i") ⟨Directory.empty, true⟩ =
      (FS.mk [([bytes "indices", bytes "i.tmp"], [])],
       ⟨Directory.empty, true⟩,
       some (.writingIndex [bytes "indices", bytes "i.tmp"])) ∧
    (save_index (FS.mk []) true [] (bytes "i") ⟨Directory.empty, true⟩).2.2 =
      some (.writingIndex [bytes "indices", bytes "i"]) ∧
    (save_index (FS.mk []) false [] (bytes "i") ⟨Directory.empty, true⟩).2.2 =
      none ∧
    (save_index (FS.mk []) false []
        (bytes "i") ⟨Directory.empty, true⟩).1.get
        [bytes "indices", bytes "i"] =
      some (serializeDir Directory.empty) := by
  have hrep : ∀ b ∈ List.replicate 1048511 97, escByte b = [b] := by
    intro b hb
    rw [List.eq_of_mem_replicate hb]
    rfl
  have hlen :
      (serializeDir (oneFileDir (List.replicate 1048511 97))).length =
        1048577 := by
    rw [serializeDir_oneFileDir_length _ hrep, List.length_replicate]
  have hgt :
      (serializeDir
        ((⟨oneFileDir (List.replicate 1048511 97), true⟩ :
          InMemoryIndex)).dir).length > 1048576 := by
    have hx : (serializeDir (oneFileDir (List.replicate 1048511 97))).length
        > 1048576 := by omega
    exact hx
  refine ⟨?_, ?_, ?_, ?_, ?_, ?_⟩
  · exact (c4_save_index_steps (FS.mk []) false [] (bytes "i")
      ⟨Directory.empty, false⟩).1 rfl
  · have h2 := (c4_save_index_steps (FS.mk []) false [] (bytes "i")
      ⟨oneFileDir (List.replicate 1048511 97), true⟩).2.1 rfl hgt
    rw [h2]
    rw [hlen]
  · exact (c4_save_index_steps
      (FS.mk [([bytes "indices", bytes "i.tmp"], [])]) false []
      (bytes "i") ⟨Directory.empty, true⟩).2.2.1 rfl (by decide) rfl
  · exact ((c4_save_index_steps (FS.mk []) true [] (bytes "i")
      ⟨Directory.empty, true⟩).2.2.2.1 rfl (by decide) rfl
      (by decide) rfl).1
  · exact ((c4_save_index_steps (FS.mk []) false [] (bytes "i")
      ⟨Directory.empty, true⟩).2.2.2.2 rfl (by decide) rfl
      (by decide) rfl).1
  · exact ((c4_save_index_steps (FS.mk []) false [] (bytes "i")
      ⟨Directory.empty, true⟩).2.2.2.2 rfl (by decide) rfl
      (by decide) rfl).2.1

/-- C9: an index whose serialized form exceeds 1 MiB (1,048,576 bytes) is
rejected with IndexTooLarge both at load time (a stored index file longer
than the cap is fatal before it is read or parsed) and at commit time
(save_index fails before writing anything); a form of exactly 1,048,576
bytes is accepted in both places. -/
theorem c9_index_size_cap :
    (∀ (base : List ByteStr) (e : IndexDirEnt) (rest : List IndexDirEnt),
      e.isFile = true → e.len > 1048576 →
      load_indices base (e :: rest) =
        .error (.indexTooLarge (base ++ [bytes "indices", e.name]) e.len)) ∧
    (∀ (base : List ByteStr) (e : IndexDirEnt) (d : Directory),
      e.isFile = true → e.len = 1048576 → decodeDir e.body = some d →
      load_indices base [e] = .ok ([(e.name, ⟨d, false⟩)], [])) ∧
    (∀ (fs : FS) (rf : Bool) (base : List ByteStr) (name : ByteStr)
        (ime : InMemoryIndex),
      ime.dirty = true → (serializeDir ime.dir).length > 1048576 →
      save_index fs rf base name ime =
        (fs, ime,
         some (.indexTooLarge [name] (serializeDir ime.dir).length))) ∧
    (∀ (fs : FS) (base : List ByteStr) (name : ByteStr) (ime : InMemoryIndex),
      ime.dirty = true → (serializeDir ime.dir).length = 1048576 →
      fs.get (base ++ [bytes "indices", set_extension name (bytes "tmp")])
          = none →
      (save_index fs false base name ime).2.2 = none) := by
  refine ⟨?_, ?_, ?_, ?_⟩
  · intro base e rest hf hlen
    have hgt : e.len > MAX_METADATA_SIZE := by
      unfold MAX_METADATA_SIZE
      omega
    unfold load_indices
    rw [hf]
    simp only [if_true, if_pos hgt]
  · intro base e d hf hlen hdec
    have hng : ¬(e.len > MAX_METADATA_SIZE) := by
      unfold MAX_METADATA_SIZE
      omega
    unfold load_indices
    rw [hf, hdec]
    simp only [if_true, if_neg hng]
    rfl
  · intro fs rf base name ime hd hlen
    have hgt : (serializeDir ime.dir).length > MAX_METADATA_SIZE := by
      unfold MAX_METADATA_SIZE
      omega
    unfold save_index
    rw [hd]
    simp only [if_true, if_pos hgt]
  · intro fs base name ime hd hlen htmp
    have hng : ¬((serializeDir ime.dir).length > MAX_METADATA_SIZE) := by
      unfold MAX_METADATA_SIZE
      omega
    unfold save_index
    rw [hd]
    simp only [if_true, if_neg hng, htmp, Option.isSome_none,
      Bool.false_eq_true, if_false]

/-- Witness for C9: a stored index of 1,048,577 bytes is rejected and one of
exactly 1,048,576 bytes is loaded; a tree serializing to 1,048,577 bytes is
rejected at commit while one serializing to exactly 1,048,576 bytes commits
cleanly. -/
theorem c9_index_size_cap_witness :
    load_indices [] [⟨bytes "i", true, 1048577, Json.num 0⟩] =
      .error (.indexTooLarge [bytes "indices", bytes "i"] 1048577) ∧
    load_indices []
        [⟨bytes "i", true, 1048576, encodeDir Directory.empty⟩] =
      .ok ([(bytes "i", ⟨Directory.empty, false⟩)], []) ∧
    (save_index (FS.mk []) false [] (bytes "i")
        ⟨oneFileDir (List.replicate 1048511 97), true⟩).2.2 =
      some (.indexTooLarge [bytes "i"] 1048577) ∧
    (save_index (FS.mk []) false [] (bytes "i")
        ⟨oneFileDir (List.replicate 1048510 97), true⟩).2.2 = none := by
  have hrep : ∀ (n : Nat) (b : Nat), b ∈ List.replicate n 97 → escByte b = [b] := by
    intro n b hb
    rw [List.eq_of_mem_replicate hb]
    rfl
  have hlen1 :
      (serializeDir (oneFileDir (List.replicate 1048511 97))).length =
        1048577 := by
    rw [serializeDir_oneFileDir_length _ (hrep 1048511), List.length_replicate]
  have hlen2 :
      (serializeDir (oneFileDir (List.replicate 1048510 97))).length =
        1048576 := by
    rw [serializeDir_oneFileDir_length _ (hrep 1048510), List.length_replicate]
  have hgt1 :
      (serializeDir
        ((⟨oneFileDir (List.replicate 1048511 97), true⟩ :
          InMemoryIndex)).dir).length > 1048576 := by
    have hx : (serializeDir (oneFileDir (List.replicate 1048511 97))).length
        > 1048576 := by omega
    exact hx
  have heq2 :
      (serializeDir
        ((⟨oneFileDir (List.replicate 1048510 97), true⟩ :
          InMemoryIndex)).dir).length = 1048576 := hlen2
  refine ⟨?_, ?_, ?_, ?_⟩
  · exact c9_index_size_cap.1 [] ⟨bytes "i", true, 1048577, Json.num 0⟩ []
      rfl (by norm_num)
  · exact c9_index_size_cap.2.1 []
      ⟨bytes "i", true, 1048576, encodeDir Directory.empty⟩
      Directory.empty rfl rfl rfl
  · have h3 := c9_index_size_cap.2.2.1 (FS.mk []) false [] (bytes "i")
      ⟨oneFileDir (List.replicate 1048511 97), true⟩ rfl hgt1
    rw [h3, hlen1]
  · exact c9_index_size_cap.2.2.2 (FS.mk []) [] (bytes "i")
      ⟨oneFileDir (List.replicate 1048510 97), true⟩ rfl heq2 rfl

/-- Model of `ImportEvent` (src/storage.rs lines 52-67); the error payload is
opaque and dropped. -/
inductive ImportEvent where
  | directory : MPath → ImportEvent
  | file : Option MPath → ByteStr → Nat → Bool → ImportEvent
  | fileData : ByteStr → ImportEvent
  | error : ImportEvent

/-- Modelled from the spec: the SHA-256 hex digest computed by `import_file`
lives in an external crate; the claims only use that it is a deterministic
pure function of the bytes, so it is modelled as such. -/
def sha256hex (b : ByteStr) : ByteStr := b

/-- One spawned hash-and-persist task (`import_file`, src/storage.rs lines
352-422), reduced to the data relevant to the tree and the handle ledger; in
the model a task completes whenever the engine next awaits or polls
completions, and its blob write succeeds. -/
structure PendingTask where
  handleId : Nat
  alloc : SimpleResourceAllocation
  parent_path : Option MPath
  file_name : ByteStr
  identity : StorageIdentifier

/-- Engine state: provider counters, the handle ledger (next fresh handle id
and the ids released so far, in order), the tree under construction, and the
pending tasks. -/
structure ImportState where
  srp : SRPInner
  nextHandle : Nat
  releasedIds : List Nat
  root : Directory
  pending : List PendingTask

/-- Release of the handle `hid` backed by `alloc` (guarded exactly as
`SimpleResourceAllocation::release` is). -/
def releaseHandle (st : ImportState) (hid : Nat)
    (alloc : SimpleResourceAllocation) : ImportState :=
  { st with
      srp := (st.srp.release alloc).1,
      releasedIds :=
        if alloc.released then st.releasedIds
        else st.releasedIds ++ [hid] }

/-- Running one spawned task: release its handle (as the task body does after
persisting the blob) and merge its completion into the tree. -/
def runPending (st : ImportState) (t : PendingTask) :
    ImportState × Option Err :=
  let st1 := releaseHandle st t.handleId t.alloc
  match mergeCompletion st1.root t.parent_path t.file_name t.identity with
  | .ok root' => ({ st1 with root := root' }, none)
  | .error e => (st1, some e)

/-- Drain merging completions (the opportunistic poll loop of `import_` and
the final drain of `import`); on a merge error the remaining tasks stay
pending for the abort-path drain. -/
def drainGo (st : ImportState) :
    List PendingTask → Except (Err × ImportState) ImportState
  | [] => .ok st
  | t :: ts =>
    match runPending st t with
    | (st', none) => drainGo st' ts
    | (st', some e) => .error (e, { st' with pending := ts })

def drainMerge (st : ImportState) : Except (Err × ImportState) ImportState :=
  drainGo { st with pending := [] } st.pending

/-- Abort-path drain (`while let Some(_) = inserters.next().await` in
`import`): every pending task still runs and releases its handle, but its
completion is discarded. -/
def drainDiscardGo (st : ImportState) : List PendingTask → ImportState
  | [] => { st with pending := [] }
  | t :: ts => drainDiscardGo (releaseHandle st t.handleId t.alloc) ts

def drainDiscard (st : ImportState) : ImportState :=
  drainDiscardGo st st.pending

/-- Outcome of the claim-retry loop of step 4a. -/
inductive ClaimOutcome where
  | granted : ImportState → Nat → SimpleResourceAllocation → ClaimOutcome
  | impossible : ImportState → ClaimOutcome
  | mergeError : Err → ImportState → ClaimOutcome
  | livelock : ImportState → ClaimOutcome

/-- The claim loop of `import_` (src/storage.rs lines 292-316): claim; on
Busy await one completion, merge it and retry; on Impossible abort. Fuel
bounds the retries: a Busy answer with no task pending makes the source spin
forever, surfaced here as `livelock` once the fuel — one more than the
pending count at entry — runs out. -/
def claimLoop : Nat → ImportState → Nat → ClaimOutcome
  | 0, st, _ => .livelock st
  | fuel + 1, st, size =>
    match st.srp.claim size with
    | (.ok alloc, srp') =>
      .granted { st with srp := srp', nextHandle := st.nextHandle + 1 }
        st.nextHandle alloc
    | (.impossible, srp') => .impossible { st with srp := srp' }
    | (.busy, srp') =>
      match st.pending with
      | [] => claimLoop fuel { st with srp := srp' } size
      | t :: ts =>
        match runPending { st with srp := srp', pending := ts } t with
        | (st', none) => claimLoop fuel st' size
        | (st', some e) => .mergeError e st'

/-- Model of the event loop `SharedStorage::import_` (src/storage.rs lines
246-350): drain ready completions, then dispatch on the event; on a `File`
event run the claim loop, then demand the `FileData` event — releasing the
handle when the stream ends or yields a non-FileData event, but (exactly as
the source does) NOT releasing it when an explicit `Error` event arrives. -/
def importGo : List ImportEvent → ImportState → ImportState × Option Err
  | [], st => (st, none)
  | ev :: rest, st =>
    match drainMerge st with
    | .error (e, st') => (st', some e)
    | .ok st1 =>
      match ev with
      | .error => (st1, some .importStreamError)
      | .fileData _ => (st1, some .unexpectedFileData)
      | .directory d =>
        match handleDirectory st1.root d with
        | .ok root' => importGo rest { st1 with root := root' }
        | .error e => (st1, some e)
      | .file parent_path file_name size executable =>
        match claimLoop (st1.pending.length + 1) st1 size with
        | .livelock st2 => (st2, some .livelock)
        | .mergeError e st2 => (st2, some e)
        | .impossible st2 =>
          (st2, some (.impossibleFileClaim
            ((parent_path.getD []) ++ [.normal file_name]) size))
        | .granted st2 hid alloc =>
          match rest with
          | [] => (releaseHandle st2 hid alloc, some .unexpectedEndOfContent)
          | .fileData bs :: rest2 =>
            importGo rest2
              { st2 with
                  pending := st2.pending ++
                    [⟨hid, alloc, parent_path, file_name,
                      ⟨sha256hex bs, bs.length, executable⟩⟩] }
          | .error :: _ => (st2, some .importStreamError)
          | _ :: _ =>
            (releaseHandle st2 hid alloc, some .expectedFileDataEvent)

/-- Model of `SharedStorage::import` up to, but not including, the index
registration and commit (src/storage.rs lines 193-244): run the event loop,
then drain — merging completions on success, discarding them on failure — so
that no spawned task outlives the call. -/
def importCore (events : List ImportEvent) (srp0 : SRPInner) :
    ImportState × Option Err :=
  match importGo events ⟨srp0, 0, [], Directory.empty, []⟩ with
  | (st, some e) => (drainDiscard st, some e)
  | (st, none) =>
    match drainMerge st with
    | .ok st' => (st', none)
    | .error (e, st') => (drainDiscard st', some e)

/-- C1 is violated by the source: on the abort path where an explicit stream
`Error` arrives in place of the expected `FileData`, the engine returns
`ImportStreamError` without releasing the admitted handle — one handle was
granted, none released, and the provider still counts one claim in use when
the import call returns (so the unreleased-handle panic in the handle's drop
check fires). The two sibling abort paths — stream end and non-FileData
event — do release the handle, showing the omission is specific to the
`Error` arm. -/
theorem c1_error_event_leaks_claim :
    (importCore [.file none (bytes "f") 1 false, .error]
        (SRPInner.mk 1 0 10 0 none)).2 = some .importStreamError ∧
    (importCore [.file none (bytes "f") 1 false, .error]
        (SRPInner.mk 1 0 10 0 none)).1.nextHandle = 1 ∧
    (importCore [.file none (bytes "f") 1 false, .error]
        (SRPInner.mk 1 0 10 0 none)).1.releasedIds = [] ∧
    (importCore [.file none (bytes "f") 1 false, .error]
        (SRPInner.mk 1 0 10 0 none)).1.srp.claims_in_use = 1 ∧
    (importCore [.file none (bytes "f") 1 false]
        (SRPInner.mk 1 0 10 0 none)).2 = some .unexpectedEndOfContent ∧
    (importCore [.file none (bytes "f") 1 false]
        (SRPInner.mk 1 0 10 0 none)).1.releasedIds = [0] ∧
    (importCore [.file none (bytes "f") 1 false, .directory []]
        (SRPInner.mk 1 0 10 0 none)).2 = some .expectedFileDataEvent ∧
    (importCore [.file none (bytes "f") 1 false, .directory []]
        (SRPInner.mk 1 0 10 0 none)).1.releasedIds = [0] :=
  ⟨rfl, rfl, rfl, rfl, rfl, rfl, rfl, rfl⟩

end SharedStorage
